import Mathlib

/-!
Verification of the wb_collector coordination layer.

This file shallowly embeds the parts of the repository that the checked
properties are about:

* the Python `dict` used by the JSON file stores (`app/db/storage.py`,
  `app/db/article_storage.py`) as an insertion-ordered association list;
* the data model (`app/models/article.py`, `app/models/account.py`);
* the sample store `ArticleStorage.add_parsing_result` /
  `get_parsing_results` / `update_analytics`;
* the consensus endpoints `get_article_link` / `get_global_link`
  (`app/api/v1/articles.py`);
* the orchestrator `WBParserService.parse_article` /
  `parse_all_articles` (`app/services/wb_parser.py`);
* the scheduler entry points (`app/services/scheduler.py`);
* the WebSocket auth session code-delivery path
  (`app/services/ws_manager.py`, `app/api/v1/ws_routes.py`).

Python floats are idealised as rationals; timestamps (`created_at`,
`parsed_at`, ...) play no role in any checked property and are omitted.
-/

namespace WB

/-! ## Python dictionaries

A Python `dict` preserves insertion order: writing to an existing key keeps
the key's position, writing a fresh key appends it.  We embed it as an
association list with exactly that update rule. -/

/-- Insertion-ordered association list standing for a Python `dict`. -/
abbrev PyDict (α β : Type) := List (α × β)

/-- Membership test for a key, `k in d` in Python. -/
def dictHasKey [DecidableEq α] (k : α) (d : PyDict α β) : Bool :=
  d.any (fun p => p.1 = k)

/-- Lookup, `d.get(k)` in Python. -/
def dictGet [DecidableEq α] (k : α) (d : PyDict α β) : Option β :=
  (d.find? (fun p => p.1 = k)).map (·.2)

/-- Assignment `d[k] = v`: replace in place when the key exists, append
otherwise. -/
def dictSet [DecidableEq α] (k : α) (v : β) (d : PyDict α β) : PyDict α β :=
  if dictHasKey k d then
    d.map (fun p => if p.1 = k then (k, v) else p)
  else
    d ++ [(k, v)]

/-- Values in iteration order, `d.values()` in Python. -/
def dictValues (d : PyDict α β) : List β := d.map (·.2)

/-! ## Counter consensus

`Counter(xs).most_common(1)[0][0]` iterates the counter's keys in
first-occurrence order and takes the first key whose count is maximal
(for `n = 1`, `heapq.nlargest` reduces to Python's `max`, which keeps the
first maximum).  `firstOccs` embeds the key iteration order, `pickMax`
the first-maximum selection. -/

/-- Keys of `Counter(l)` in iteration order: first occurrences, in order,
skipping values already seen. -/
def firstOccsAux [DecidableEq α] (seen : List α) : List α → List α
  | [] => []
  | x :: xs =>
    if x ∈ seen then firstOccsAux seen xs
    else x :: firstOccsAux (x :: seen) xs

/-- First occurrence of each distinct value of `l`, in order. -/
def firstOccs [DecidableEq α] (l : List α) : List α :=
  firstOccsAux [] l

/-- First element of `l` with maximal `cnt`; `none` on the empty list. -/
def pickMax (cnt : α → ℕ) : List α → Option α
  | [] => none
  | x :: xs =>
    match pickMax cnt xs with
    | none => some x
    | some b => if cnt b > cnt x then some b else some x

/-- Embedding of `Counter(l).most_common(1)[0][0]` (with `most_common` on
an empty counter modelled as `none`): the first-seen value of `l` whose
multiplicity in `l` is maximal. -/
def mostCommon [DecidableEq α] (l : List α) : Option α :=
  pickMax (fun x => l.count x) (firstOccs l)

/-! ## Data model (`app/models/article.py`, `app/models/account.py`) -/

/-- In-memory `ParsingResult` (article.py lines 54-91).  `__init__` sets
exactly `uuid`, `article_id`, `account_uuid`, `spp`, `dest`,
`price_basic`, `price_product`, `qty` and `parsed_at`; it accepts no
`price_with_card` or `card_discount_percent` parameter.  Python objects
carry dynamic attributes, so `card_discount_percent` is embedded as an
`Option` that is `none` whenever the attribute is absent — which it is on
every instance the constructor produces (`hasattr` in articles.py line 207
tests exactly this). -/
structure ParsingResult where
  uuid : String
  article_id : String
  account_uuid : String
  spp : ℚ
  dest : String
  price_basic : Int
  price_product : Int
  qty : Int
  card_discount_percent : Option ℚ := none
deriving DecidableEq, Repr

/-- Parameter names accepted by `ParsingResult.__init__`
(article.py lines 70-81). -/
def parsingResultInitParams : List String :=
  ["article_id", "account_uuid", "spp", "dest", "price_basic",
   "price_product", "qty", "uuid", "parsed_at"]

/-- Embedding of the Python exceptions the checked paths can raise. -/
inductive PyError
  | typeError
  | exception
deriving DecidableEq, Repr

/-- Embedding of a keyword call `ParsingResult(k1=v1, ...)`: Python raises
`TypeError` when a keyword is not among the declared parameters; otherwise
the instance carries the fields `__init__` assigns. -/
def callParsingResultInit (kwargs : List String) (v : ParsingResult) :
    Except PyError ParsingResult :=
  if kwargs.all (fun k => parsingResultInitParams.contains k) then .ok v
  else .error .typeError

/-- Stored JSON record produced by `ParsingResult.to_dict`
(article.py lines 93-105).  A hand-written or legacy JSON record may carry
an extra `card_discount_percent` key, hence the `Option` field; `to_dict`
itself never writes that key. -/
structure StoredResult where
  uuid : String
  article_id : String
  account_uuid : String
  spp : ℚ
  dest : String
  price_basic : Int
  price_product : Int
  qty : Int
  card_discount_percent : Option ℚ := none
deriving DecidableEq, Repr

/-- Embedding of `ParsingResult.to_dict`: writes the nine fixed keys and
no `card_discount_percent` key, whatever dynamic attributes the instance
carries. -/
def ParsingResult.toDict (r : ParsingResult) : StoredResult :=
  { uuid := r.uuid
    article_id := r.article_id
    account_uuid := r.account_uuid
    spp := r.spp
    dest := r.dest
    price_basic := r.price_basic
    price_product := r.price_product
    qty := r.qty
    card_discount_percent := none }

/-- Tracked article (article.py lines 12-51). -/
structure ArticleRec where
  uuid : String
  article_id : String
  name : Option String := none
  brand : Option String := none
deriving DecidableEq, Repr

/-- Analytics record (article.py lines 108-147). -/
structure AnalyticsRec where
  article_id : String
  most_common_spp : ℚ
  most_common_dest : String
  generated_url : String
  total_parses : Int
deriving DecidableEq, Repr

/-- Account (account.py lines 12-81): `cookies` (the credential blob) and
`proxy_uuid` are optional. -/
structure AccountRec where
  uuid : String
  name : String
  phone : String
  cookies : Option String := none
  proxy_uuid : Option String := none
deriving DecidableEq, Repr

/-! ## Stores

The JSON files behind `ArticleStorage` and `AccountStorage`:
`data/articles.json` maps `article_id` to an article record,
`data/parsing_results.json` maps `article_id` to a `dict` from
`account_uuid` to a stored result, `data/analytics.json` maps
`article_id` to an analytics record, `data/accounts.json` maps the
account uuid to an account record. -/

abbrev ResultsStore := PyDict String (PyDict String StoredResult)

/-- Combined persistent state of the four JSON stores. -/
structure ServerState where
  articles : PyDict String ArticleRec
  results : ResultsStore
  analytics : PyDict String AnalyticsRec
  accounts : PyDict String AccountRec
deriving DecidableEq, Repr

/-- Embedding of `ArticleStorage.get_all_articles`
(article_storage.py lines 73-91): every stored record, in `dict` value
order.  (Re-reading the record's own fields is the identity here.) -/
def getAllArticles (d : PyDict String ArticleRec) : List ArticleRec :=
  dictValues d

/-- Embedding of `AccountStorage.get_all_accounts` (storage.py lines
198-225): every stored account, in `dict` value order — there is no
filtering on `cookies`. -/
def getAllAccounts (d : PyDict String AccountRec) : List AccountRec :=
  dictValues d

/-- Embedding of `ArticleStorage.add_parsing_result` (article_storage.py
lines 95-114): ensure the outer key exists, then overwrite the slot of
`(article_id, account_uuid)` with `result.to_dict()`. -/
def addParsingResult (r : ParsingResult) (d : ResultsStore) : ResultsStore :=
  let inner := (dictGet r.article_id d).getD []
  dictSet r.article_id (dictSet r.account_uuid r.toDict inner) d

/-- Stored record for one `(article_id, account_uuid)` pair. -/
def lookupStored (d : ResultsStore) (aid uid : String) : Option StoredResult :=
  match dictGet aid d with
  | none => none
  | some inner => dictGet uid inner

/-- Embedding of `ArticleStorage.get_parsing_results` (article_storage.py
lines 116-141): rebuild a `ParsingResult` from each stored record of the
article, reading only the eight keys `__init__` accepts — in particular
never the `card_discount_percent` key, so the rebuilt instance has no such
attribute. -/
def getParsingResults (d : ResultsStore) (aid : String) : List ParsingResult :=
  ((dictGet aid d).getD []).map (fun p =>
    { uuid := p.2.uuid
      article_id := p.2.article_id
      account_uuid := p.2.account_uuid
      spp := p.2.spp
      dest := p.2.dest
      price_basic := p.2.price_basic
      price_product := p.2.price_product
      qty := p.2.qty
      card_discount_percent := none })

/-- Python `int()` on a rational: truncation toward zero. -/
def pyInt (q : ℚ) : Int :=
  if q < 0 then ⌈q⌉ else ⌊q⌋

/-- Embedding of `ArticleStorage._generate_url` (article_storage.py lines
207-214). -/
def generateUrl (articleId : String) (spp : Int) (dest : String) : String :=
  "https://card.wb.ru/cards/v4/detail?appType=1&curr=rub&dest=" ++ dest ++
    "&spp=" ++ toString spp ++ "&hide_dtype=11&ab_testing=false" ++
    "&lang=ru&nm=" ++ articleId

/-- Embedding of `ArticleStorage.update_analytics` (article_storage.py
lines 145-185): with no stored results return `none` and leave the
analytics store untouched; otherwise take the most common raw `spp` and
the most common raw `dest` (plain `Counter`s — no rounding of any kind),
build the record and write it under the article id. -/
def updateAnalytics (aid : String) (results : ResultsStore)
    (analytics : PyDict String AnalyticsRec) :
    PyDict String AnalyticsRec × Option AnalyticsRec :=
  let rs := getParsingResults results aid
  match mostCommon (rs.map (·.spp)), mostCommon (rs.map (·.dest)) with
  | some spp, some dest =>
    let rec_ : AnalyticsRec :=
      { article_id := aid
        most_common_spp := spp
        most_common_dest := dest
        generated_url := generateUrl aid (pyInt spp) dest
        total_parses := rs.length }
    (dictSet aid rec_ analytics, some rec_)
  | _, _ => (analytics, none)

/-! ## Rounding

`round(x, n)` in Python rounds half to even. -/

/-- Round half to even, to an integer. -/
def pyRoundHalfEven (q : ℚ) : Int :=
  let f := ⌊q⌋
  let frac := q - f
  if frac < 1 / 2 then f
  else if 1 / 2 < frac then f + 1
  else if f % 2 = 0 then f else f + 1

/-- Embedding of Python `round(q, ndigits)`. -/
def pyRound (q : ℚ) (ndigits : ℕ) : ℚ :=
  (pyRoundHalfEven (q * 10 ^ ndigits) : ℚ) / 10 ^ ndigits

/-! ## The sampler (`WBParserService.parse_article`, wb_parser.py lines
31-623)

The browser automation itself is opaque; what the function observes on
the page is abstracted into `PageObs`.  What is embedded is the control
flow around the three `ParsingResult(...)` construction sites (lines
250, 264 and 575), each of which passes the keyword arguments
`price_with_card` and `card_discount_percent`, and the `try`/`except`
blocks that guard them (lines 529, 601 and 619). -/

/-- What one `parse_article` call observes: whether the guarded blocks
raise, what the page reports. -/
structure PageObs where
  /-- The outer `try` (lines 130-617) raises before producing a result:
  the handler at line 619 returns `None`. -/
  driverFails : Bool
  /-- The price `try` (lines 157-527) raises before reaching the page
  checks: caught at line 529, control falls through to the HTML block. -/
  priceBlockRaises : Bool
  /-- Page shows `ERR_NO_SUPPORTED_PROXIES` (line 247). -/
  proxyUnsupported : Bool
  /-- Page shows the site-down banner (line 262). -/
  siteDown : Bool
  /-- The HTML `try` (lines 537-599) raises before the construction at
  line 575: caught at line 601, `result` stays `None`. -/
  htmlBlockRaises : Bool
  /-- Scraped strikethrough price (`old_price`). -/
  oldPrice : Option Int
  /-- Scraped current price (`base_price`). -/
  basePrice : Option Int
  /-- Scraped loyalty-card price (`price_with_card`). -/
  priceWithCard : Option Int
  /-- Scraped stock quantity. -/
  qty : Int
deriving DecidableEq, Repr

/-- Keyword names passed at all three `ParsingResult(...)` call sites in
`parse_article` (wb_parser.py lines 250-259, 264-273 and 575-584). -/
def parseArticleCallKwargs : List String :=
  ["article_id", "account_uuid", "spp", "dest", "price_basic",
   "price_product", "price_with_card", "card_discount_percent", "qty"]

/-- Field values intended by the proxy-error early returns (lines
250-260 and 264-274): zeros with the default `dest`.  (`uuid4` is not
modelled; no checked property reads `uuid`.) -/
def zeroResult (articleId accountUuid : String) : ParsingResult :=
  { uuid := ""
    article_id := articleId
    account_uuid := accountUuid
    spp := 0
    dest := "123585633"
    price_basic := 0
    price_product := 0
    qty := 0
    card_discount_percent := some 0 }

/-- Field values intended by the main construction (lines 560-585):
the price arithmetic of lines 560-572. -/
def mainResult (articleId accountUuid : String) (obs : PageObs) :
    ParsingResult :=
  let price_base : Int := obs.oldPrice.getD 0
  let price_spp : Int := obs.basePrice.getD 0
  let price_card : Int := obs.priceWithCard.getD 0
  let spp_real : ℚ :=
    if price_base ≠ 0 ∧ price_spp ≠ 0 ∧ price_spp < price_base then
      pyRound ((1 - (price_spp : ℚ) / (price_base : ℚ)) * 100) 2
    else 0
  let card_discount_real : ℚ :=
    if price_spp ≠ 0 ∧ price_card ≠ 0 ∧ price_card < price_spp then
      pyRound ((1 - (price_card : ℚ) / (price_spp : ℚ)) * 100) 2
    else 0
  { uuid := ""
    article_id := articleId
    account_uuid := accountUuid
    spp := spp_real
    dest := "123585633"
    price_basic := price_base
    price_product := price_spp
    qty := obs.qty
    card_discount_percent := some card_discount_real }

/-- Embedding of `WBParserService.parse_article`: the two early-return
construction sites inside the price `try`, then the main construction
inside the HTML `try`; every construction raises or succeeds through
`callParsingResultInit`, and each enclosing `except` turns a raise into
fall-through (line 529) or `result = None` (lines 601, 614-617). -/
def parseArticle (articleId accountUuid : String) (obs : PageObs) :
    Option ParsingResult :=
  if obs.driverFails then none
  else
    let early : Except PyError (Option ParsingResult) :=
      if obs.priceBlockRaises then .error .exception
      else if obs.proxyUnsupported then
        (callParsingResultInit parseArticleCallKwargs
          (zeroResult articleId accountUuid)).map some
      else if obs.siteDown then
        (callParsingResultInit parseArticleCallKwargs
          (zeroResult articleId accountUuid)).map some
      else .ok none
    match early with
    | .ok (some r) => some r
    | _ =>
      if obs.htmlBlockRaises then none
      else
        match callParsingResultInit parseArticleCallKwargs
            (mainResult articleId accountUuid obs) with
        | .ok r => some r
        | .error _ => none

/-! ## The orchestrator (`WBParserService.parse_all_articles`,
wb_parser.py lines 625-673)

The nested products-outer/accounts-inner loops are embedded as one fold
over the explicit worklist of pairs; the per-pair sampler (the
`parse_article` call together with the proxy resolution feeding it) is a
parameter, matching the spec's external `SampleSource`. -/

/-- One sampler: zero or one result per `(article, account)` pair. -/
abbrev SampleSource := ArticleRec → AccountRec → Option ParsingResult

/-- The worklist: products outer, accounts inner (lines 647-649). -/
def pairProduct (arts : List ArticleRec) (accs : List AccountRec) :
    List (ArticleRec × AccountRec) :=
  (arts.map (fun a => accs.map (fun c => (a, c)))).flatten

/-- Running tally of one run: the results store, the success counter and
the list of attempted `(article_id, account_uuid)` pairs. -/
abbrev RunAcc := ResultsStore × ℕ × List (String × String)

/-- One loop iteration (lines 650-667): invoke the sampler; persist and
count on success, continue either way. -/
def runPairsStep (sampler : SampleSource) (st : RunAcc)
    (p : ArticleRec × AccountRec) : RunAcc :=
  match sampler p.1 p.2 with
  | some r =>
    (addParsingResult r st.1, st.2.1 + 1, st.2.2 ++ [(p.1.article_id, p.2.uuid)])
  | none => (st.1, st.2.1, st.2.2 ++ [(p.1.article_id, p.2.uuid)])

/-- The double loop over the worklist. -/
def runPairs (sampler : SampleSource) (pairs : List (ArticleRec × AccountRec))
    (init : RunAcc) : RunAcc :=
  pairs.foldl (runPairsStep sampler) init

/-- Embedding of `parse_all_articles`: load articles and accounts, return
0 at once when either list is empty, run the double loop, then recompute
analytics for every article (lines 670-671) and return the success
count.  The returned triple is the new state, the count and the attempted
pairs. -/
def parseAllArticles (sampler : SampleSource) (st : ServerState) :
    ServerState × ℕ × List (String × String) :=
  let articles := getAllArticles st.articles
  let accounts := getAllAccounts st.accounts
  if articles.isEmpty then (st, 0, [])
  else if accounts.isEmpty then (st, 0, [])
  else
    let out := runPairs sampler (pairProduct articles accounts) (st.results, 0, [])
    let analytics2 :=
      articles.foldl (fun an a => (updateAnalytics a.article_id out.1 an).1)
        st.analytics
    ({ st with results := out.1, analytics := analytics2 }, out.2.1, out.2.2)

/-! ## Scheduler (`app/services/scheduler.py`) -/

/-- Embedding of `ParsingScheduler._run_parsing` (scheduler.py lines
39-48): awaits the orchestrator run in an executor, discards its value
and falls off the end — an `async def` with no `return` yields `None`.
The pair is the state after the run and the (absent) returned count. -/
def schedulerRunParsing (sampler : SampleSource) (st : ServerState) :
    ServerState × Option ℕ :=
  ((parseAllArticles sampler st).1, none)

/-- Embedding of `ParsingScheduler.run_now` (scheduler.py lines 63-66):
returns whatever `_run_parsing` returns. -/
def schedulerRunNow (sampler : SampleSource) (st : ServerState) :
    ServerState × Option ℕ :=
  schedulerRunParsing sampler st

/-! ## Consensus endpoints (`app/api/v1/articles.py`) -/

/-- Outcome of an endpoint: a payload, an HTTP 404, or an HTTP 500 (an
exception escaping the handler). -/
inductive ApiResult (α : Type)
  | ok (value : α)
  | notFound (detail : String)
  | serverError (detail : String)
deriving DecidableEq, Repr

/-- Embedding of `get_article_link` (articles.py lines 84-117) on top of
`ArticleStorage.get_analytics` (article_storage.py lines 187-205): a 404
when no analytics record exists, else the record (the `LinkResponse`
repeats its fields verbatim). -/
def getArticleLink (st : ServerState) (aid : String) : ApiResult AnalyticsRec :=
  match dictGet aid st.analytics with
  | none => .notFound "no data for the article"
  | some a => .ok a

/-- One row of the per-account loyalty-discount report
(articles.py lines 249-254). -/
structure DiscountEntry where
  account_uuid : String
  account_name : Option String
  avg_card_discount : Option ℚ
  samples : Int
deriving DecidableEq, Repr

/-- Python's tuple order on the sort key
`(avg_card_discount is not None, avg_card_discount)`
(articles.py line 255). -/
def discountKeyLE (a b : DiscountEntry) : Bool :=
  match a.avg_card_discount, b.avg_card_discount with
  | none, none => true
  | none, some _ => true
  | some _, none => false
  | some x, some y => x ≤ y

/-- Insert `x` into a descending-sorted list, before the first element
whose key is at most `x`'s. -/
def insDesc (le : α → α → Bool) (x : α) : List α → List α
  | [] => [x]
  | y :: ys => if le y x then x :: y :: ys else y :: insDesc le x ys

/-- Stable descending sort: agrees with CPython's stable
`list.sort(key=..., reverse=True)`. -/
def pySortDesc (le : α → α → Bool) (l : List α) : List α :=
  l.foldr (insDesc le) []

/-- Accumulators of the collection loop of `get_global_link`
(articles.py lines 188-211). -/
structure GlobalAcc where
  all_spp : List ℚ
  all_dest : List String
  all_card_discounts : List ℚ
  discounts_by_account : PyDict String (List ℚ)
deriving Repr

/-- Per-result step of the collection loop (articles.py lines 202-211):
append the result's `spp` and `dest`; when the result carries a
`card_discount_percent` attribute that is not `None` (the `hasattr` test
of line 207), record it globally and under the result's account. -/
def collectOne (a : GlobalAcc) (r : ParsingResult) : GlobalAcc :=
  let a := { a with
    all_spp := a.all_spp ++ [r.spp]
    all_dest := a.all_dest ++ [r.dest] }
  match r.card_discount_percent with
  | some dpc =>
    { a with
      all_card_discounts := a.all_card_discounts ++ [dpc]
      discounts_by_account :=
        dictSet r.account_uuid
          (((dictGet r.account_uuid a.discounts_by_account).getD []) ++ [dpc])
          a.discounts_by_account }
  | none => a

/-- Per-article step of the collection loop: fold `collectOne` over the
article's stored results. -/
def collectStep (d : ResultsStore) (acc : GlobalAcc) (article : ArticleRec) :
    GlobalAcc :=
  (getParsingResults d article.article_id).foldl collectOne acc

/-- Payload of `get_global_link`.  In the source the per-account report
travels inside the `stats` keyword of the `LinkResponse` constructor. -/
structure GlobalLinkResponse where
  most_common_spp : Int
  most_common_dest : String
  generated_url : String
  total_parses : Int
  avg_card_discount : Option ℚ
  avg_discount_by_account : List DiscountEntry
deriving DecidableEq, Repr

/-- Embedding of the bucketing of line 222 of articles.py:
`rounded_spp = [math.floor(spp / 10) * 10 for spp in all_spp]`. -/
def globalRoundedSpp (all_spp : List ℚ) : List Int :=
  all_spp.map (fun s => ⌊s / 10⌋ * 10)

/-- The spp the global consensus selects (articles.py lines 225-228):
the most common bucket. -/
def globalMostCommonSpp (all_spp : List ℚ) : Option Int :=
  mostCommon (globalRoundedSpp all_spp)

/-- Embedding of `get_global_link` (articles.py lines 166-284): 404 with
no articles; collect every article's results; 404 when nothing was
collected; floor each `spp` to its lower multiple of ten (line 222) and
take the most common bucket and the most common raw `dest`; anchor the
URL on the first article; average the loyalty discounts globally and per
account and sort the per-account rows descending with unset averages
last.  The guarded `most_common(1)[0]` on an empty counter would be an
escaping `IndexError`, kept as the (unreachable) `serverError` branch. -/
def getGlobalLink (st : ServerState) : ApiResult GlobalLinkResponse :=
  let articles := getAllArticles st.articles
  if articles.isEmpty then .notFound "no articles"
  else
    let acc := articles.foldl (collectStep st.results) ⟨[], [], [], []⟩
    if acc.all_spp.isEmpty || acc.all_dest.isEmpty then
      .notFound "no parsing data"
    else
      match globalMostCommonSpp acc.all_spp, mostCommon acc.all_dest,
          articles.head? with
      | some mcSpp, some mcDest, some a0 =>
        let url :=
          "https://card.wb.ru/cards/v4/detail?appType=1&curr=rub&dest=" ++
            mcDest ++ "&spp=" ++ toString mcSpp ++ "&nm=" ++ a0.article_id
        let avgCard : Option ℚ :=
          if acc.all_card_discounts.isEmpty then none
          else some (pyRound
            (acc.all_card_discounts.sum / (acc.all_card_discounts.length : ℚ)) 1)
        let report := acc.discounts_by_account.map (fun p =>
          let account := dictGet p.1 st.accounts
          { account_uuid := p.1
            account_name := account.map (·.name)
            avg_card_discount :=
              if p.2.isEmpty then none
              else some (pyRound (p.2.sum / (p.2.length : ℚ)) 1)
            samples := (p.2.length : Int) : DiscountEntry })
        .ok
          { most_common_spp := mcSpp
            most_common_dest := mcDest
            generated_url := url
            total_parses := (acc.all_spp.length : Int)
            avg_card_discount := avgCard
            avg_discount_by_account := pySortDesc discountKeyLE report }
      | _, _, _ => .serverError "IndexError"

/-! ## WebSocket auth session (`app/services/ws_manager.py`,
`app/api/v1/ws_routes.py`)

Only the code-delivery path is embedded: the session object holds the
last delivered code and the one-shot event flag; the receive loop
dispatches `submit_code` and `ping` envelopes. -/

/-- Mutable state of one `AuthSession` (ws_manager.py lines 28-42): the
delivered code and whether `code_event` has been set.  The class has no
state field distinguishing awaiting-code from closed. -/
structure AuthSessionSt where
  phone : String
  name : String
  code : Option String := none
  codeEventSet : Bool := false
deriving DecidableEq, Repr

/-- Embedding of `AuthSession.set_code` (ws_manager.py lines 78-87):
unconditionally store the code and set the event — no check of the
session's progress, no rejection path. -/
def setCode (c : String) (s : AuthSessionSt) : AuthSessionSt :=
  { s with code := some c, codeEventSet := true }

/-- Inbound envelopes of the receive loop (ws_routes.py lines 70-86). -/
inductive InMsg
  | submitCode (code : String)
  | ping
  | other (t : String)
deriving DecidableEq, Repr

/-- Outbound envelopes.  `sessionClosed` is the signal the specification
asks for; it appears here only so its absence can be stated — no code
path of the repository emits it. -/
inductive OutMsg
  | errorMsg (message : String)
  | pong
  | sessionClosed
deriving DecidableEq, Repr

/-- Embedding of Python `str.strip()`: drop leading and trailing
whitespace. -/
def pyStrip (s : String) : String :=
  ⟨((s.data.dropWhile Char.isWhitespace).reverse.dropWhile
    Char.isWhitespace).reverse⟩

/-- Embedding of one iteration of the `websocket_auth` receive loop
(ws_routes.py lines 70-86): `submit_code` strips the code and either
reports an empty-code error or calls `set_code`; `ping` answers `pong`;
any other type is ignored. -/
def handleClientMessage (msg : InMsg) (s : AuthSessionSt) :
    AuthSessionSt × List OutMsg :=
  match msg with
  | .submitCode c =>
    let c := pyStrip c
    if c = "" then (s, [.errorMsg "code must not be empty"])
    else (setCode c s, [])
  | .ping => (s, [.pong])
  | .other _ => (s, [])

/-! ## Properties of the Counter consensus -/

theorem pickMax_eq_none {cnt : α → ℕ} {l : List α} :
    pickMax cnt l = none ↔ l = [] := by
  cases l with
  | nil => simp [pickMax]
  | cons x xs =>
    simp only [pickMax]
    constructor
    · intro h
      cases hx : pickMax cnt xs with
      | none => rw [hx] at h; simp at h
      | some b => rw [hx] at h; dsimp at h; split at h <;> simp_all
    · intro h; cases h

theorem pickMax_mem {cnt : α → ℕ} {l : List α} {v : α}
    (h : pickMax cnt l = some v) : v ∈ l := by
  induction l with
  | nil => simp [pickMax] at h
  | cons x xs ih =>
    simp only [pickMax] at h
    cases hx : pickMax cnt xs with
    | none => rw [hx] at h; simp at h; simp [h]
    | some b =>
      rw [hx] at h; dsimp at h
      split at h
      · simp at h; subst h; exact List.mem_cons_of_mem _ (ih hx)
      · simp at h; simp [h]

theorem pickMax_cons {cnt : α → ℕ} (y : α) (xs : List α) :
    pickMax cnt (y :: xs) =
      some ((pickMax cnt xs).elim y (fun b => if cnt y < cnt b then b else y)) := by
  simp only [pickMax]
  cases pickMax cnt xs with
  | none => rfl
  | some b =>
    simp only [Option.elim, gt_iff_lt]
    split <;> rfl

theorem pickMax_maximal {cnt : α → ℕ} {l : List α} {v : α}
    (h : pickMax cnt l = some v) : ∀ x ∈ l, cnt x ≤ cnt v := by
  induction l generalizing v with
  | nil => simp [pickMax] at h
  | cons y xs ih =>
    intro x hx
    rw [pickMax_cons] at h
    cases hp : pickMax cnt xs with
    | none =>
      rw [hp] at h
      simp only [Option.elim, Option.some.injEq] at h
      subst h
      rcases List.mem_cons.mp hx with rfl | hmem
      · exact le_refl _
      · exact absurd (pickMax_eq_none.mp hp ▸ hmem) (List.not_mem_nil x)
    | some b =>
      rw [hp] at h
      simp only [Option.elim, Option.some.injEq] at h
      rcases List.mem_cons.mp hx with rfl | hmem
      · split at h <;> subst h <;> omega
      · have hb := ih hp x hmem
        split at h <;> subst h <;> omega

theorem pickMax_first [DecidableEq α] {cnt : α → ℕ} {l : List α} {v : α}
    (h : pickMax cnt l = some v) :
    ∀ x ∈ l, cnt x = cnt v → l.indexOf v ≤ l.indexOf x := by
  induction l generalizing v with
  | nil => simp [pickMax] at h
  | cons y xs ih =>
    intro x hx hcx
    rw [pickMax_cons] at h
    cases hp : pickMax cnt xs with
    | none =>
      rw [hp] at h
      simp only [Option.elim, Option.some.injEq] at h
      subst h
      simp [List.indexOf_cons_self]
    | some b =>
      rw [hp] at h
      simp only [Option.elim, Option.some.injEq] at h
      split at h
      · -- the tail's maximum wins strictly over the head
        rename_i hlt
        subst v
        have hyv : y ≠ b := fun hyv => by subst hyv; omega
        rcases List.mem_cons.mp hx with rfl | hmem
        · omega
        · have hxy : x ≠ y := fun hxy => by subst hxy; omega
          rw [List.indexOf_cons_ne _ hyv, List.indexOf_cons_ne _ (Ne.symm hxy)]
          exact Nat.succ_le_succ (ih hp x hmem hcx)
      · subst v
        simp [List.indexOf_cons_self]

theorem mem_firstOccsAux [DecidableEq α] {seen : List α} {l : List α} {x : α} :
    x ∈ firstOccsAux seen l ↔ x ∈ l ∧ x ∉ seen := by
  induction l generalizing seen with
  | nil => simp [firstOccsAux]
  | cons y ys ih =>
    by_cases hy : y ∈ seen
    · rw [firstOccsAux, if_pos hy, ih]
      constructor
      · rintro ⟨h1, h2⟩
        exact ⟨List.mem_cons_of_mem _ h1, h2⟩
      · rintro ⟨h1, h2⟩
        rcases List.mem_cons.mp h1 with rfl | h1
        · exact absurd hy h2
        · exact ⟨h1, h2⟩
    · rw [firstOccsAux, if_neg hy, List.mem_cons, ih]
      constructor
      · rintro (rfl | ⟨h1, h2⟩)
        · exact ⟨List.mem_cons_self _ _, hy⟩
        · refine ⟨List.mem_cons_of_mem _ h1, fun hs => h2 ?_⟩
          exact List.mem_cons_of_mem _ hs
      · rintro ⟨h1, h2⟩
        rcases List.mem_cons.mp h1 with rfl | h1
        · exact Or.inl rfl
        · by_cases hxy : x = y
          · exact Or.inl hxy
          · refine Or.inr ⟨h1, fun hs => ?_⟩
            rcases List.mem_cons.mp hs with rfl | hs
            · exact hxy rfl
            · exact h2 hs

theorem mem_firstOccs [DecidableEq α] {l : List α} {x : α} :
    x ∈ firstOccs l ↔ x ∈ l := by
  simp [firstOccs, mem_firstOccsAux]

theorem firstOccs_eq_nil [DecidableEq α] {l : List α} :
    firstOccs l = [] ↔ l = [] := by
  cases l with
  | nil => simp [firstOccs, firstOccsAux]
  | cons x xs => simp [firstOccs, firstOccsAux]

theorem mostCommon_mem [DecidableEq α] {l : List α} {v : α}
    (h : mostCommon l = some v) : v ∈ l :=
  mem_firstOccs.mp (pickMax_mem h)

theorem mostCommon_maximal [DecidableEq α] {l : List α} {v : α}
    (h : mostCommon l = some v) : ∀ x ∈ l, l.count x ≤ l.count v :=
  fun x hx => pickMax_maximal h x (mem_firstOccs.mpr hx)

theorem mostCommon_first [DecidableEq α] {l : List α} {v : α}
    (h : mostCommon l = some v) :
    ∀ x ∈ l, l.count x = l.count v →
      (firstOccs l).indexOf v ≤ (firstOccs l).indexOf x :=
  fun x hx hc => pickMax_first h x (mem_firstOccs.mpr hx) hc

theorem mostCommon_isSome [DecidableEq α] {l : List α} (h : l ≠ []) :
    ∃ v, mostCommon l = some v := by
  cases hm : mostCommon l with
  | none =>
    exact absurd (firstOccs_eq_nil.mp (pickMax_eq_none.mp hm)) h
  | some v => exact ⟨v, rfl⟩

/-! ## Properties of the dictionary embedding -/

theorem dictHasKey_cons [DecidableEq α] {p : α × β} {d : PyDict α β} {k : α} :
    dictHasKey k (p :: d) = ((p.1 = k : Bool) || dictHasKey k d) := by
  simp [dictHasKey]

theorem dictSet_cons_ne [DecidableEq α] {p : α × β} {d : PyDict α β}
    {k : α} {v : β} (h : p.1 ≠ k) :
    dictSet k v (p :: d) = p :: dictSet k v d := by
  by_cases hd : dictHasKey k d
  · simp [dictSet, dictHasKey_cons, h, hd]
  · simp [dictSet, dictHasKey_cons, h, hd]

theorem dictGet_set_self [DecidableEq α] {d : PyDict α β} {k : α} {v : β} :
    dictGet k (dictSet k v d) = some v := by
  induction d with
  | nil => simp [dictSet, dictHasKey, dictGet]
  | cons p ds ih =>
    by_cases hp : p.1 = k
    · simp [dictSet, dictHasKey_cons, hp, dictGet, List.find?_cons]
    · rw [dictSet_cons_ne hp]
      simpa [dictGet, List.find?_cons, hp] using ih

theorem dictGet_cons [DecidableEq α] {p : α × β} {d : PyDict α β} {k : α} :
    dictGet k (p :: d) = if p.1 = k then some p.2 else dictGet k d := by
  by_cases hp : p.1 = k <;> simp [dictGet, List.find?_cons, hp]

theorem dictGet_set_ne [DecidableEq α] {d : PyDict α β} {k k' : α} {v : β}
    (h : k' ≠ k) : dictGet k' (dictSet k v d) = dictGet k' d := by
  induction d with
  | nil =>
    have : (k = k') = False := by
      simp only [eq_iff_iff, iff_false]
      exact fun hh => h hh.symm
    simp [dictSet, dictHasKey, dictGet, List.find?_cons, this]
  | cons p ds ih =>
    by_cases hp : p.1 = k
    · subst hp
      have hcons : dictSet p.1 v (p :: ds) =
          (p.1, v) :: ds.map (fun q => if q.1 = p.1 then (p.1, v) else q) := by
        simp [dictSet, dictHasKey_cons]
      rw [hcons, dictGet_cons, if_neg (fun hh => h hh.symm)]
      have hmap : dictGet k'
          (ds.map (fun q => if q.1 = p.1 then (p.1, v) else q)) = dictGet k' ds := by
        clear hcons ih
        induction ds with
        | nil => rfl
        | cons q qs ihq =>
          by_cases hq : q.1 = p.1
          · simp only [List.map_cons, if_pos hq, dictGet_cons, ihq]
            rw [if_neg (fun hh => h hh.symm), if_neg (fun hh => h (hq ▸ hh).symm)]
          · simp only [List.map_cons, if_neg hq, dictGet_cons, ihq]
      rw [hmap, dictGet_cons, if_neg (fun hh => h hh.symm)]
    · rw [dictSet_cons_ne hp, dictGet_cons, dictGet_cons, ih]

theorem keys_mapSet [DecidableEq α] {d : PyDict α β} {k : α} {v : β} :
    (d.map (fun q => if q.1 = k then (k, v) else q)).map Prod.fst =
      d.map Prod.fst := by
  induction d with
  | nil => rfl
  | cons q qs ih =>
    by_cases hq : q.1 = k <;> simp [hq, ih]

theorem dictSet_keys [DecidableEq α] {d : PyDict α β} {k : α} {v : β} :
    (dictSet k v d).map Prod.fst =
      if dictHasKey k d then d.map Prod.fst else d.map Prod.fst ++ [k] := by
  by_cases hd : dictHasKey k d
  · rw [show dictSet k v d = d.map (fun q => if q.1 = k then (k, v) else q) from
      by simp [dictSet, hd], keys_mapSet, if_pos hd]
  · rw [show dictSet k v d = d ++ [(k, v)] from by simp [dictSet, hd],
      if_neg hd, List.map_append]
    rfl

theorem not_dictHasKey_not_mem [DecidableEq α] {d : PyDict α β} {k : α}
    (h : ¬ dictHasKey k d) : k ∉ d.map Prod.fst := by
  simp only [dictHasKey, List.any_eq_true, not_exists, not_and] at h
  intro hk
  rcases List.mem_map.mp hk with ⟨p, hp, rfl⟩
  simpa using h p hp

theorem dictSet_keys_nodup [DecidableEq α] {d : PyDict α β} {k : α} {v : β}
    (h : (d.map Prod.fst).Nodup) : ((dictSet k v d).map Prod.fst).Nodup := by
  rw [dictSet_keys]
  by_cases hd : dictHasKey k d
  · simpa [hd] using h
  · rw [if_neg hd, List.nodup_append]
    exact ⟨h, List.nodup_singleton _,
      fun a ha hk => absurd ((List.mem_singleton.mp hk) ▸ ha)
        (not_dictHasKey_not_mem hd)⟩

theorem mem_dictSet [DecidableEq α] {d : PyDict α β} {k : α} {v : β} {p : α × β}
    (h : p ∈ dictSet k v d) : p = (k, v) ∨ p ∈ d := by
  by_cases hd : dictHasKey k d
  · simp only [dictSet, if_pos hd] at h
    rcases List.mem_map.mp h with ⟨q, hq, rfl⟩
    by_cases hqk : q.1 = k
    · simp [hqk]
    · simp [hqk, hq]
  · simp only [dictSet, if_neg hd, List.mem_append, List.mem_singleton] at h
    tauto

theorem dictGet_mem [DecidableEq α] {d : PyDict α β} {k : α} {b : β}
    (h : dictGet k d = some b) : ∃ q ∈ d, q.2 = b := by
  simp only [dictGet, Option.map_eq_some'] at h
  rcases h with ⟨q, hq, rfl⟩
  exact ⟨q, List.mem_of_find?_eq_some hq, rfl⟩

/-! ## Properties of the sample store -/

theorem lookupStored_add_self (r : ParsingResult) (d : ResultsStore) :
    lookupStored (addParsingResult r d) r.article_id r.account_uuid =
      some r.toDict := by
  simp [lookupStored, addParsingResult, dictGet_set_self]

theorem lookupStored_add_ne {r : ParsingResult} {d : ResultsStore}
    {aid uid : String} (h : ¬(r.article_id = aid ∧ r.account_uuid = uid)) :
    lookupStored (addParsingResult r d) aid uid = lookupStored d aid uid := by
  by_cases ha : r.article_id = aid
  · have hu : uid ≠ r.account_uuid := fun hu => h ⟨ha, hu.symm⟩
    subst ha
    simp only [lookupStored, addParsingResult, dictGet_set_self]
    cases hg : dictGet r.article_id d with
    | none =>
      show dictGet uid (dictSet r.account_uuid r.toDict (Option.getD none [])) = none
      rw [show dictSet r.account_uuid r.toDict (Option.getD none []) =
        [(r.account_uuid, r.toDict)] from rfl, dictGet_cons,
        if_neg (fun hh => hu hh.symm)]
      rfl
    | some inner => simp [hg, dictGet_set_ne hu]
  · simp only [lookupStored, addParsingResult,
      dictGet_set_ne (fun hh => ha hh.symm)]

/-- The shape invariant of the results file: no duplicate article keys,
no duplicate account keys inside an article — at most one slot per
`(article_id, account_uuid)` pair. -/
def WellFormedStore (d : ResultsStore) : Prop :=
  (d.map Prod.fst).Nodup ∧ ∀ p ∈ d, (p.2.map Prod.fst).Nodup

theorem wellFormedStore_empty : WellFormedStore [] := by
  constructor <;> simp

theorem wellFormedStore_add {d : ResultsStore} (r : ParsingResult)
    (h : WellFormedStore d) : WellFormedStore (addParsingResult r d) := by
  refine ⟨dictSet_keys_nodup h.1, fun p hp => ?_⟩
  rcases mem_dictSet hp with rfl | hmem
  · dsimp only
    apply dictSet_keys_nodup
    cases hg : dictGet r.article_id d with
    | none => simp [hg]
    | some inner =>
      rcases dictGet_mem hg with ⟨q, hq, rfl⟩
      simpa [hg] using h.2 q hq
  · exact h.2 p hmem

theorem getLast?_cons_getD (a : α) (l : List α) :
    (a :: l).getLast? = some (l.getLast?.getD a) := by
  induction l generalizing a with
  | nil => rfl
  | cons b l ih =>
    rw [List.getLast?_cons_cons, ih b]
    rfl

/-- The store after a sequence of `add_parsing_result` calls, at one
`(article_id, account_uuid)` slot: the last added result for the pair
when there is one, the original content otherwise. -/
theorem lookupStored_foldl_add (rs : List ParsingResult) (d : ResultsStore)
    (aid uid : String) :
    lookupStored (rs.foldl (fun s r => addParsingResult r s) d) aid uid =
      match (rs.filter
          (fun r => r.article_id = aid ∧ r.account_uuid = uid)).getLast? with
      | some r => some r.toDict
      | none => lookupStored d aid uid := by
  induction rs generalizing d with
  | nil => rfl
  | cons r tl ih =>
    rw [List.foldl_cons, ih]
    by_cases hkey : r.article_id = aid ∧ r.account_uuid = uid
    · rw [List.filter_cons_of_pos (by simpa using hkey), getLast?_cons_getD]
      cases htl : (tl.filter
          (fun r => r.article_id = aid ∧ r.account_uuid = uid)).getLast? with
      | none =>
        simp only [htl, Option.getD_none]
        rcases hkey with ⟨rfl, rfl⟩
        exact lookupStored_add_self r d
      | some r' => simp [htl]
    · rw [List.filter_cons_of_neg (by simpa using hkey)]
      cases htl : (tl.filter
          (fun r => r.article_id = aid ∧ r.account_uuid = uid)).getLast? with
      | none => simp [htl, lookupStored_add_ne hkey]
      | some r' => simp [htl]

/-! ## Claim C10: global consensus bucketing on the spec's example -/

/-- Concrete store backing the C10 example and the C4 counterexample:
one tracked article with one stored sample per account. -/
def exampleStored (uid : String) (spp : ℚ) (dest : String) : StoredResult :=
  { uuid := uid
    article_id := "100001"
    account_uuid := uid
    spp := spp
    dest := dest
    price_basic := 10000
    price_product := 9000
    qty := 1 }

/-- C10: for the multiset of stored spp values [43.93, 47.34, 49.99, 53.76]
presented in any input order, the global consensus bucketing produces the
buckets 40, 40, 40, 50 (as a multiset) and selects 40 as the most common
bucket; the selection is invariant under permutation of the input. -/
theorem c10_global_bucketing_perm_invariant :
    ∀ l : List ℚ, l.Perm [43.93, 47.34, 49.99, 53.76] →
      (globalRoundedSpp l).Perm [40, 40, 40, 50] ∧
      globalMostCommonSpp l = some 40 := by
  intro l hl
  have hbase : globalRoundedSpp [43.93, 47.34, 49.99, 53.76] = [40, 40, 40, 50] := by
    norm_num [globalRoundedSpp, Int.floor_eq_iff]
  have hmap : (globalRoundedSpp l).Perm [40, 40, 40, 50] := hbase ▸ hl.map _
  refine ⟨hmap, ?_⟩
  have hne : globalRoundedSpp l ≠ [] := by
    intro h0
    have := hmap.length_eq
    rw [h0] at this
    simp at this
  obtain ⟨v, hv⟩ := mostCommon_isSome hne
  have hvmem : v ∈ globalRoundedSpp l := mostCommon_mem hv
  have hcount40 : (globalRoundedSpp l).count 40 = 3 := by
    rw [hmap.count_eq]; decide
  have hcount50 : (globalRoundedSpp l).count 50 = 1 := by
    rw [hmap.count_eq]; decide
  have h40mem : (40 : Int) ∈ globalRoundedSpp l := by
    rw [hmap.mem_iff]; decide
  have hv40 : v = 40 ∨ v = 50 := by
    have hv' : v ∈ ([40, 40, 40, 50] : List Int) := hmap.mem_iff.mp hvmem
    simp at hv'
    tauto
  rcases hv40 with rfl | rfl
  · exact hv
  · have hmax := mostCommon_maximal hv 40 h40mem
    rw [hcount40, hcount50] at hmax
    exact absurd hmax (by omega)

/-- Witness for C10 at the identity permutation. -/
theorem c10_witness :
    ([43.93, 47.34, 49.99, 53.76] : List ℚ).Perm [43.93, 47.34, 49.99, 53.76] ∧
      globalMostCommonSpp [43.93, 47.34, 49.99, 53.76] = some 40 :=
  ⟨List.Perm.refl _,
    (c10_global_bucketing_perm_invariant _ (List.Perm.refl _)).2⟩

/-! ## Claim C4: the per-product consensus of `update_analytics` -/

/-- Store with three samples for one article whose spp values are the
spec's example values 43.93, 47.34 and 53.76 (all distinct, two sharing
the 40 bucket). -/
def c4Results : ResultsStore :=
  [("100001",
    [("acc-1", exampleStored "acc-1" 43.93 "123585633"),
     ("acc-2", exampleStored "acc-2" 47.34 "123585633"),
     ("acc-3", exampleStored "acc-3" 53.76 "123585633")])]

/-- Spec-side definition, following the claim's words only, for comparison
with `updateAnalytics` (which is translated from the source): bucket the
stored spp values by flooring to the nearest lower multiple of ten and
take the most frequent bucket. -/
def specBucketedSppConsensus (spps : List ℚ) : Option Int :=
  mostCommon (spps.map (fun s => ⌊s / 10⌋ * 10))

/-- C4 (counterexample): on spp samples 43.93, 47.34, 53.76 the claim's
bucketed consensus is 40, but `update_analytics` — which counts the raw
spp values with no bucketing — answers 43.93.  The claim is false of the
code. -/
theorem c4_counterexample :
    ((updateAnalytics "100001" c4Results []).2).map (·.most_common_spp) =
        some 43.93 ∧
      specBucketedSppConsensus
        ((getParsingResults c4Results "100001").map (·.spp)) = some 40 ∧
      (43.93 : ℚ) ≠ (40 : ℚ) := by
  refine ⟨?_, ?_, by norm_num⟩
  · norm_num [updateAnalytics, getParsingResults, c4Results, exampleStored,
      dictGet, List.find?, mostCommon, firstOccs, firstOccsAux, pickMax,
      List.count_cons, generateUrl, pyInt]
  · norm_num [specBucketedSppConsensus, getParsingResults, c4Results,
      exampleStored, dictGet, List.find?, mostCommon, firstOccs, firstOccsAux,
      pickMax, List.count_cons, Int.floor_eq_iff]

/-- C4 (amended): with at least one stored sample, `update_analytics`
writes and returns a record whose consensus spp is the most frequent raw
spp value (no bucketing), ties broken by the first-seen value in counter
iteration order, and independently whose consensus dest is the most
frequent raw dest value; the record also carries the sample count and the
generated URL. -/
theorem c4_amended_raw_consensus (results : ResultsStore)
    (analytics : PyDict String AnalyticsRec) (aid : String)
    (h : getParsingResults results aid ≠ []) :
    ∃ a, (updateAnalytics aid results analytics).2 = some a ∧
      (updateAnalytics aid results analytics).1 = dictSet aid a analytics ∧
      a.article_id = aid ∧
      a.most_common_spp ∈ (getParsingResults results aid).map (·.spp) ∧
      (∀ x ∈ (getParsingResults results aid).map (·.spp),
        ((getParsingResults results aid).map (·.spp)).count x ≤
          ((getParsingResults results aid).map (·.spp)).count
            a.most_common_spp) ∧
      (∀ x ∈ (getParsingResults results aid).map (·.spp),
        ((getParsingResults results aid).map (·.spp)).count x =
            ((getParsingResults results aid).map (·.spp)).count
              a.most_common_spp →
          (firstOccs ((getParsingResults results aid).map (·.spp))).indexOf
              a.most_common_spp ≤
            (firstOccs ((getParsingResults results aid).map (·.spp))).indexOf
              x) ∧
      a.most_common_dest ∈ (getParsingResults results aid).map (·.dest) ∧
      (∀ x ∈ (getParsingResults results aid).map (·.dest),
        ((getParsingResults results aid).map (·.dest)).count x ≤
          ((getParsingResults results aid).map (·.dest)).count
            a.most_common_dest) ∧
      a.total_parses = (getParsingResults results aid).length ∧
      a.generated_url = generateUrl aid (pyInt a.most_common_spp)
        a.most_common_dest := by
  obtain ⟨v, hv⟩ :=
    mostCommon_isSome (l := (getParsingResults results aid).map (·.spp))
      (by simpa using h)
  obtain ⟨w, hw⟩ :=
    mostCommon_isSome (l := (getParsingResults results aid).map (·.dest))
      (by simpa using h)
  refine ⟨⟨aid, v, w, generateUrl aid (pyInt v) w,
      (getParsingResults results aid).length⟩,
    ?_, ?_, rfl, mostCommon_mem hv, mostCommon_maximal hv,
    mostCommon_first hv, mostCommon_mem hw, mostCommon_maximal hw, rfl, rfl⟩
  · simp only [updateAnalytics, hv, hw]
  · simp only [updateAnalytics, hv, hw]

/-- Witness for the amended C4 at the concrete store `c4Results`. -/
theorem c4_amended_raw_consensus_witness :
    getParsingResults c4Results "100001" ≠ [] ∧
      ∃ a, (updateAnalytics "100001" c4Results []).2 = some a ∧
        a.most_common_spp ∈ (getParsingResults c4Results "100001").map (·.spp) ∧
        ∀ x ∈ (getParsingResults c4Results "100001").map (·.spp),
          ((getParsingResults c4Results "100001").map (·.spp)).count x ≤
            ((getParsingResults c4Results "100001").map (·.spp)).count
              a.most_common_spp := by
  have hne : getParsingResults c4Results "100001" ≠ [] := by
    simp [getParsingResults, c4Results, dictGet, List.find?]
  obtain ⟨a, h1, _, _, h4, h5, _⟩ :=
    c4_amended_raw_consensus c4Results [] "100001" hne
  exact ⟨hne, a, h1, h4, h5⟩

/-! ## Claim C5: the sample store invariant -/

theorem wellFormedStore_foldl (rs : List ParsingResult) (d : ResultsStore)
    (h : WellFormedStore d) :
    WellFormedStore (rs.foldl (fun s r => addParsingResult r s) d) := by
  induction rs generalizing d with
  | nil => exact h
  | cons r tl ih => exact ih _ (wellFormedStore_add r h)

/-- C5: for every sequence of `add_parsing_result` calls starting from the
empty results file, the store keeps at most one slot per
`(article_id, account_uuid)` pair, and each pair's slot holds exactly the
last result added for that pair — the latest, never an older one. -/
theorem c5_overwrite_per_pair :
    ∀ rs : List ParsingResult,
      WellFormedStore (rs.foldl (fun s r => addParsingResult r s) []) ∧
      ∀ aid uid : String,
        lookupStored (rs.foldl (fun s r => addParsingResult r s) []) aid uid =
          ((rs.filter
              (fun r => r.article_id = aid ∧ r.account_uuid = uid)).getLast?).map
            (·.toDict) := by
  intro rs
  refine ⟨wellFormedStore_foldl rs [] wellFormedStore_empty, fun aid uid => ?_⟩
  rw [lookupStored_foldl_add]
  cases (rs.filter
      (fun r => r.article_id = aid ∧ r.account_uuid = uid)).getLast? with
  | none => rfl
  | some r => rfl

/-! ## Properties of the orchestrator loop -/

theorem countP_add_countP_not (q : α → Bool) (l : List α) :
    l.countP q + l.countP (fun x => !(q x)) = l.length := by
  induction l with
  | nil => rfl
  | cons x xs ih =>
    simp only [List.countP_cons, List.length_cons]
    cases hq : q x
    · simp [hq]
      omega
    · simp [hq]
      omega

theorem runPairs_cons (sampler : SampleSource) (p : ArticleRec × AccountRec)
    (tl : List (ArticleRec × AccountRec)) (init : RunAcc) :
    runPairs sampler (p :: tl) init =
      runPairs sampler tl (runPairsStep sampler init p) := rfl

theorem runPairs_count (sampler : SampleSource)
    (pairs : List (ArticleRec × AccountRec)) (init : RunAcc) :
    (runPairs sampler pairs init).2.1 =
      init.2.1 + pairs.countP (fun p => (sampler p.1 p.2).isSome) := by
  induction pairs generalizing init with
  | nil => simp [runPairs]
  | cons p tl ih =>
    rw [runPairs_cons, ih, List.countP_cons]
    unfold runPairsStep
    cases hs : sampler p.1 p.2
    · simp [hs]
    · simp [hs]
      omega

theorem runPairs_attempts (sampler : SampleSource)
    (pairs : List (ArticleRec × AccountRec)) (init : RunAcc) :
    (runPairs sampler pairs init).2.2 =
      init.2.2 ++ pairs.map (fun p => (p.1.article_id, p.2.uuid)) := by
  induction pairs generalizing init with
  | nil => simp [runPairs]
  | cons p tl ih =>
    rw [runPairs_cons, ih]
    unfold runPairsStep
    cases hs : sampler p.1 p.2 <;> simp [hs]

theorem runPairs_store (sampler : SampleSource)
    (pairs : List (ArticleRec × AccountRec)) (init : RunAcc) :
    (runPairs sampler pairs init).1 =
      pairs.foldl (fun d p =>
        match sampler p.1 p.2 with
        | some r => addParsingResult r d
        | none => d) init.1 := by
  induction pairs generalizing init with
  | nil => simp [runPairs]
  | cons p tl ih =>
    rw [runPairs_cons, ih, List.foldl_cons]
    unfold runPairsStep
    cases hs : sampler p.1 p.2 <;> simp [hs]

theorem storeFold_untouched (sampler : SampleSource)
    (pairs : List (ArticleRec × AccountRec)) (d : ResultsStore)
    (aid uid : String)
    (h : ∀ p ∈ pairs, ∀ r, sampler p.1 p.2 = some r →
      ¬(r.article_id = aid ∧ r.account_uuid = uid)) :
    lookupStored (pairs.foldl (fun d p =>
        match sampler p.1 p.2 with
        | some r => addParsingResult r d
        | none => d) d) aid uid = lookupStored d aid uid := by
  induction pairs generalizing d with
  | nil => rfl
  | cons p tl ih =>
    rw [List.foldl_cons]
    cases hs : sampler p.1 p.2 with
    | none =>
      simp only [hs]
      exact ih _ (fun q hq => h q (List.mem_cons_of_mem _ hq))
    | some r =>
      simp only [hs]
      rw [ih _ (fun q hq => h q (List.mem_cons_of_mem _ hq)),
        lookupStored_add_ne (h p (List.mem_cons_self _ _) r hs)]

theorem runPairs_persists (sampler : SampleSource)
    (pairs : List (ArticleRec × AccountRec)) (init : RunAcc)
    (hkey : ∀ p ∈ pairs, ∀ r, sampler p.1 p.2 = some r →
      r.article_id = p.1.article_id ∧ r.account_uuid = p.2.uuid)
    (hnodup : (pairs.map (fun p => (p.1.article_id, p.2.uuid))).Nodup) :
    ∀ p ∈ pairs, ∀ r, sampler p.1 p.2 = some r →
      lookupStored (runPairs sampler pairs init).1
        r.article_id r.account_uuid = some r.toDict := by
  rw [runPairs_store]
  induction pairs generalizing init with
  | nil => simp
  | cons q tl ih =>
    have hnod := hnodup
    rw [List.map_cons, List.nodup_cons] at hnod
    intro p hp r hr
    rw [List.foldl_cons]
    rcases List.mem_cons.mp hp with rfl | hmem
    · rw [hr]
      have hkeyr := hkey p (List.mem_cons_self _ _) r hr
      rw [storeFold_untouched]
      · exact lookupStored_add_self r init.1
      · intro q' hq' r' hr' hbad
        have hkeyq := hkey q' (List.mem_cons_of_mem _ hq') r' hr'
        exact hnod.1 (List.mem_map.mpr ⟨q', hq', by
          rw [Prod.mk.injEq]
          constructor
          · rw [← hkeyq.1, hbad.1, hkeyr.1]
          · rw [← hkeyq.2, hbad.2, hkeyr.2]⟩)
    · have htl := hnod.2
      cases hs : sampler q.1 q.2 with
      | none =>
        simp only [hs]
        exact ih init (fun a ha => hkey a (List.mem_cons_of_mem _ ha)) htl p hmem r hr
      | some r0 =>
        simp only [hs]
        exact ih (addParsingResult r0 init.1, init.2)
          (fun a ha => hkey a (List.mem_cons_of_mem _ ha)) htl p hmem r hr

theorem pairProduct_cons (a : ArticleRec) (arts : List ArticleRec)
    (accs : List AccountRec) :
    pairProduct (a :: arts) accs =
      accs.map (fun c => (a, c)) ++ pairProduct arts accs := by
  simp [pairProduct]

theorem pairProduct_length (arts : List ArticleRec) (accs : List AccountRec) :
    (pairProduct arts accs).length = arts.length * accs.length := by
  induction arts with
  | nil => simp [pairProduct]
  | cons a arts ih =>
    rw [pairProduct_cons]
    simp [ih, Nat.succ_mul, Nat.add_comm]

theorem mem_pairProduct {arts : List ArticleRec} {accs : List AccountRec}
    {p : ArticleRec × AccountRec} :
    p ∈ pairProduct arts accs ↔ p.1 ∈ arts ∧ p.2 ∈ accs := by
  induction arts with
  | nil => simp [pairProduct]
  | cons a arts ih =>
    rw [pairProduct_cons]
    simp only [List.mem_append, List.mem_map, ih, List.mem_cons]
    constructor
    · rintro (⟨c, hc, rfl⟩ | ⟨h1, h2⟩)
      · exact ⟨Or.inl rfl, hc⟩
      · exact ⟨Or.inr h1, h2⟩
    · rintro ⟨rfl | h1, h2⟩
      · exact Or.inl ⟨p.2, h2, rfl⟩
      · exact Or.inr ⟨h1, h2⟩

theorem pairKeys_first_mem {arts : List ArticleRec} {accs : List AccountRec}
    {x : String × String}
    (hx : x ∈ (pairProduct arts accs).map (fun p => (p.1.article_id, p.2.uuid))) :
    x.1 ∈ arts.map (·.article_id) := by
  rcases List.mem_map.mp hx with ⟨p, hp, rfl⟩
  exact List.mem_map.mpr ⟨p.1, (mem_pairProduct.mp hp).1, rfl⟩

theorem pairKeys_nodup {arts : List ArticleRec} {accs : List AccountRec}
    (h1 : (arts.map (·.article_id)).Nodup)
    (h2 : (accs.map (·.uuid)).Nodup) :
    ((pairProduct arts accs).map (fun p => (p.1.article_id, p.2.uuid))).Nodup := by
  induction arts with
  | nil => simp [pairProduct]
  | cons a arts ih =>
    rw [pairProduct_cons, List.map_append, List.nodup_append]
    simp only [List.map_cons, List.nodup_cons] at h1
    refine ⟨?_, ih h1.2, ?_⟩
    · have : (accs.map (fun c => (a, c))).map
          (fun p => (p.1.article_id, p.2.uuid)) =
          (accs.map (·.uuid)).map (fun u => (a.article_id, u)) := by
        simp [List.map_map, Function.comp]
      rw [this]
      exact h2.map (fun u v huv => by simpa using (Prod.mk.injEq _ _ _ _).mp huv)
    · intro x hxl hxr
      have hx1l : x.1 = a.article_id := by
        rcases List.mem_map.mp hxl with ⟨q, hq, rfl⟩
        rcases List.mem_map.mp hq with ⟨c, hc, rfl⟩
        rfl
      exact h1.1 (hx1l ▸ pairKeys_first_mem hxr)

/-! ## Unfolding the orchestrator -/

theorem parseAllArticles_empty (sampler : SampleSource) (st : ServerState)
    (h : getAllArticles st.articles = [] ∨ getAllAccounts st.accounts = []) :
    parseAllArticles sampler st = (st, 0, []) := by
  rcases h with h | h
  · simp [parseAllArticles, h]
  · simp only [parseAllArticles, h]
    cases (getAllArticles st.articles).isEmpty <;> simp

theorem parseAllArticles_run (sampler : SampleSource) (st : ServerState)
    (h1 : getAllArticles st.articles ≠ [])
    (h2 : getAllAccounts st.accounts ≠ []) :
    parseAllArticles sampler st =
      ({ st with
          results := (runPairs sampler
            (pairProduct (getAllArticles st.articles)
              (getAllAccounts st.accounts)) (st.results, 0, [])).1
          analytics := (getAllArticles st.articles).foldl
            (fun an a => (updateAnalytics a.article_id
              (runPairs sampler
                (pairProduct (getAllArticles st.articles)
                  (getAllAccounts st.accounts)) (st.results, 0, [])).1 an).1)
            st.analytics },
        (runPairs sampler
          (pairProduct (getAllArticles st.articles)
            (getAllAccounts st.accounts)) (st.results, 0, [])).2.1,
        (runPairs sampler
          (pairProduct (getAllArticles st.articles)
            (getAllAccounts st.accounts)) (st.results, 0, [])).2.2) := by
  simp [parseAllArticles, h1, h2]

/-! ## Claim C2: fault isolation of one failing pair -/

/-- C2: over any non-empty article and account sets (with distinct ids, as
the stores are keyed by them) and any sampler whose results carry the
pair's keys, a run in which exactly one pair fails still attempts every
pair in the fixed order, persists every successful sample under its pair,
and returns N*M - 1. -/
theorem c2_fault_isolation (sampler : SampleSource) (st : ServerState)
    (h1 : getAllArticles st.articles ≠ [])
    (h2 : getAllAccounts st.accounts ≠ [])
    (hids : ((getAllArticles st.articles).map (·.article_id)).Nodup)
    (huuids : ((getAllAccounts st.accounts).map (·.uuid)).Nodup)
    (hkey : ∀ a ∈ getAllArticles st.articles,
      ∀ c ∈ getAllAccounts st.accounts, ∀ r, sampler a c = some r →
        r.article_id = a.article_id ∧ r.account_uuid = c.uuid)
    (hfail : (pairProduct (getAllArticles st.articles)
        (getAllAccounts st.accounts)).countP
          (fun p => (sampler p.1 p.2).isNone) = 1) :
    (parseAllArticles sampler st).2.2 =
      (pairProduct (getAllArticles st.articles)
        (getAllAccounts st.accounts)).map
          (fun p => (p.1.article_id, p.2.uuid)) ∧
    (parseAllArticles sampler st).2.1 =
      (getAllArticles st.articles).length *
        (getAllAccounts st.accounts).length - 1 ∧
    ∀ p ∈ pairProduct (getAllArticles st.articles)
        (getAllAccounts st.accounts),
      ∀ r, sampler p.1 p.2 = some r →
        lookupStored (parseAllArticles sampler st).1.results
          r.article_id r.account_uuid = some r.toDict := by
  rw [parseAllArticles_run sampler st h1 h2]
  have hkeyP : ∀ p ∈ pairProduct (getAllArticles st.articles)
      (getAllAccounts st.accounts), ∀ r, sampler p.1 p.2 = some r →
        r.article_id = p.1.article_id ∧ r.account_uuid = p.2.uuid := by
    intro p hp r hr
    have hm := mem_pairProduct.mp hp
    exact hkey p.1 hm.1 p.2 hm.2 r hr
  refine ⟨by rw [runPairs_attempts]; rfl, ?_, ?_⟩
  · rw [runPairs_count]
    have hsum := countP_add_countP_not
      (fun p => (sampler p.1 p.2).isSome)
      (pairProduct (getAllArticles st.articles) (getAllAccounts st.accounts))
    have hcongr : (pairProduct (getAllArticles st.articles)
        (getAllAccounts st.accounts)).countP
          (fun p => !(sampler p.1 p.2).isSome) =
        (pairProduct (getAllArticles st.articles)
          (getAllAccounts st.accounts)).countP
            (fun p => (sampler p.1 p.2).isNone) := by
      refine List.countP_congr (fun p _ => ?_)
      cases sampler p.1 p.2 <;> rfl
    rw [hcongr, hfail] at hsum
    rw [← pairProduct_length (getAllArticles st.articles)
      (getAllAccounts st.accounts)]
    have hz : ((st.results, 0, []) : RunAcc).2.1 = 0 := rfl
    rw [hz]
    omega
  · exact runPairs_persists sampler _ _ hkeyP (pairKeys_nodup hids huuids)

/-- Article used by the concrete orchestrator states. -/
def mkArt (aid : String) : ArticleRec := { uuid := aid, article_id := aid }

/-- Credentialed account used by the concrete orchestrator states. -/
def mkAcc (u : String) : AccountRec :=
  { uuid := u, name := u, phone := "7", cookies := some "[]" }

/-- Two articles, two accounts, empty sample store. -/
def c2State : ServerState :=
  { articles := [("111", mkArt "111"), ("222", mkArt "222")]
    results := []
    analytics := []
    accounts := [("u1", mkAcc "u1"), ("u2", mkAcc "u2")] }

/-- A sampler that fails exactly on the pair (222, u2) and otherwise
returns a sample keyed by the pair. -/
def c2Sampler : SampleSource := fun a c =>
  if a.article_id = "222" ∧ c.uuid = "u2" then none
  else some
    { uuid := ""
      article_id := a.article_id
      account_uuid := c.uuid
      spp := 10
      dest := "123585633"
      price_basic := 100
      price_product := 90
      qty := 1 }

/-- Witness for C2: two articles, two accounts, one induced failure — the
run returns 2*2 - 1. -/
theorem c2_fault_isolation_witness :
    (parseAllArticles c2Sampler c2State).2.1 =
      (getAllArticles c2State.articles).length *
        (getAllAccounts c2State.accounts).length - 1 := by
  refine (c2_fault_isolation c2Sampler c2State (by decide) (by decide)
    (by decide) (by decide) ?_ (by decide)).2.1
  intro a ha c hc r hr
  unfold c2Sampler at hr
  split at hr
  · exact absurd hr (by simp)
  · obtain rfl := Option.some.inj hr
    exact ⟨rfl, rfl⟩

/-! ## Claim C6: account loading and the empty-set early returns -/

/-- An account whose credential blob is absent. -/
def c6Account : AccountRec :=
  { uuid := "acc-1", name := "bare", phone := "700", cookies := none }

/-- One tracked article and one credential-less account. -/
def c6State : ServerState :=
  { articles := [("111", mkArt "111")]
    results := []
    analytics := []
    accounts := [("acc-1", c6Account)] }

/-- C6 (counterexample): `get_all_accounts` performs no credential
filtering — the account with an empty credential blob is loaded, and the
orchestrator attempts a pair with it, where the claim predicts the
credentialed-account set (and hence the attempt list) to be empty. -/
theorem c6_counterexample :
    getAllAccounts c6State.accounts = [c6Account] ∧
      c6Account.cookies = none ∧
      (parseAllArticles (fun _ _ => none) c6State).2.2 = [("111", "acc-1")] := by
  refine ⟨rfl, rfl, ?_⟩
  decide

/-- C6 (amended): the orchestrator loads all tracked articles and ALL
accounts — regardless of their credential blob — and, whenever either
list is empty, returns 0 immediately with no pair attempted, no store
change and no error. -/
theorem c6_amended_no_filter_empty_zero (sampler : SampleSource)
    (st : ServerState) :
    (getAllAccounts st.accounts).length = st.accounts.length ∧
      ((getAllArticles st.articles = [] ∨ getAllAccounts st.accounts = []) →
        parseAllArticles sampler st = (st, 0, [])) :=
  ⟨by simp [getAllAccounts, dictValues],
    fun h => parseAllArticles_empty sampler st h⟩

/-- Witness for the amended C6 on the empty state. -/
theorem c6_amended_witness :
    parseAllArticles (fun _ _ => none) ⟨[], [], [], []⟩ =
      (⟨[], [], [], []⟩, 0, []) :=
  (c6_amended_no_filter_empty_zero (fun _ _ => none) ⟨[], [], [], []⟩).2
    (Or.inl rfl)

/-! ## Claim C1: the sampler always returns `None` -/

theorem parseArticleCallKwargs_rejected :
    (∀ x ∈ parseArticleCallKwargs, x ∈ parsingResultInitParams) = False := by
  simp only [eq_iff_iff, iff_false]
  decide

theorem parseArticle_eq_none (aid uid : String) (obs : PageObs) :
    parseArticle aid uid obs = none := by
  obtain ⟨df, pbr, pu, sd, hbr, op, bp, pwc, q⟩ := obs
  cases df <;> cases pbr <;> cases pu <;> cases sd <;> cases hbr <;>
    simp [parseArticle, callParsingResultInit, parseArticleCallKwargs_rejected,
      Except.map]

/-- C1: every construction site of `parse_article` passes the keyword
arguments `price_with_card` and `card_discount_percent`, which
`ParsingResult.__init__` rejects with `TypeError` inside the guarded
blocks — so `parse_article` returns `None` for every observation, and a
run of `parse_all_articles` driven by it persists nothing and returns
0. -/
theorem c1_parse_article_always_none (aid uid : String) (obs : PageObs)
    (st : ServerState) (obsF : ArticleRec → AccountRec → PageObs) :
    parseArticle aid uid obs = none ∧
      (parseAllArticles
        (fun a c => parseArticle a.article_id c.uuid (obsF a c)) st).2.1 = 0 ∧
      (parseAllArticles
        (fun a c => parseArticle a.article_id c.uuid (obsF a c)) st).1.results =
        st.results := by
  refine ⟨parseArticle_eq_none aid uid obs, ?_⟩
  by_cases hA : getAllArticles st.articles = []
  · rw [parseAllArticles_empty _ st (Or.inl hA)]
    exact ⟨rfl, rfl⟩
  · by_cases hB : getAllAccounts st.accounts = []
    · rw [parseAllArticles_empty _ st (Or.inr hB)]
      exact ⟨rfl, rfl⟩
    · rw [parseAllArticles_run _ st hA hB]
      constructor
      · rw [runPairs_count]
        have hz : ∀ x ∈ pairProduct (getAllArticles st.articles)
            (getAllAccounts st.accounts),
            ((parseArticle x.1.article_id x.2.uuid (obsF x.1 x.2)).isSome = true ↔
              (fun _ : ArticleRec × AccountRec => false) x = true) := by
          intro x _
          simp [parseArticle_eq_none]
        rw [List.countP_congr hz]
        simp
      · rw [runPairs_store]
        have : ∀ d, (pairProduct (getAllArticles st.articles)
            (getAllAccounts st.accounts)).foldl (fun d p =>
              match parseArticle p.1.article_id p.2.uuid (obsF p.1 p.2) with
              | some r => addParsingResult r d
              | none => d) d = d := by
          intro d
          induction pairProduct (getAllArticles st.articles)
              (getAllAccounts st.accounts) generalizing d with
          | nil => rfl
          | cons p tl ih =>
            rw [List.foldl_cons, parseArticle_eq_none]
            exact ih d
        exact this st.results

/-! ## Claim C3: `run_now` and the run's count -/

/-- One article, one credentialed account. -/
def c3State : ServerState :=
  { articles := [("111", mkArt "111")]
    results := []
    analytics := []
    accounts := [("u1", mkAcc "u1")] }

/-- A sampler that always succeeds. -/
def c3Sampler : SampleSource := fun a c =>
  some
    { uuid := ""
      article_id := a.article_id
      account_uuid := c.uuid
      spp := 10
      dest := "123585633"
      price_basic := 100
      price_product := 90
      qty := 1 }

/-- C3 (code-bug evidence): the orchestrator run that `run_now` triggers
counts 1 successful sample, yet `run_now` hands its caller `None` —
`_run_parsing` never returns the executor's result, so the annotated
`-> int` of `run_now` is never honoured. -/
theorem c3_run_now_returns_none :
    (parseAllArticles c3Sampler c3State).2.1 = 1 ∧
      (schedulerRunNow c3Sampler c3State).2 = none := by
  constructor
  · decide
  · rfl

/-! ## Claim C7: late and duplicate code deliveries -/

/-- A session that has already recorded a code (its one-shot event is
set: the login flow has been woken — the session left awaiting-code). -/
def c7Session : AuthSessionSt :=
  { phone := "p", name := "n", code := some "1111", codeEventSet := true }

/-- C7 (counterexample): a second `submit_code` delivered to a session
that has already recorded a code is silently accepted — the stored code
is overwritten and no session-closed signal (indeed no reply at all) is
sent, where the claim demands rejection with a "session closed" answer
and an unchanged code. -/
theorem c7_counterexample :
    (handleClientMessage (.submitCode "2222") c7Session).1.code = some "2222" ∧
      (handleClientMessage (.submitCode "2222") c7Session).1.code ≠
        c7Session.code ∧
      OutMsg.sessionClosed ∉ (handleClientMessage (.submitCode "2222")
        c7Session).2 := by
  refine ⟨by decide, by decide, by decide⟩

/-- C7 (amended): the handler never crashes and never emits a
session-closed signal; a non-empty `submit_code` is accepted
unconditionally in every session state, overwriting the stored code and
re-setting the event with no reply, and an empty one leaves the session
unchanged (answered only with an empty-code error).  Late or duplicate
deliveries are therefore silently absorbed, not rejected. -/
theorem c7_amended_silent_overwrite (s : AuthSessionSt) (msg : InMsg) :
    OutMsg.sessionClosed ∉ (handleClientMessage msg s).2 ∧
      (∀ c, msg = .submitCode c → pyStrip c ≠ "" →
        (handleClientMessage msg s).1 =
            { s with code := some (pyStrip c), codeEventSet := true } ∧
          (handleClientMessage msg s).2 = []) ∧
      (∀ c, msg = .submitCode c → pyStrip c = "" →
        (handleClientMessage msg s).1 = s) := by
  refine ⟨?_, ?_, ?_⟩
  · cases msg with
    | submitCode c => by_cases h : pyStrip c = "" <;> simp [handleClientMessage, h]
    | ping => simp [handleClientMessage]
    | other t => simp [handleClientMessage]
  · rintro c rfl h
    exact ⟨by simp [handleClientMessage, h, setCode], by
      simp [handleClientMessage, h]⟩
  · rintro c rfl h
    simp [handleClientMessage, h]

/-- Witness for the amended C7 on a session that already holds a code. -/
theorem c7_amended_witness :
    OutMsg.sessionClosed ∉ (handleClientMessage (.submitCode "2222")
        c7Session).2 ∧
      (handleClientMessage (.submitCode "2222") c7Session).1 =
        { c7Session with code := some "2222", codeEventSet := true } := by
  have h := c7_amended_silent_overwrite c7Session (.submitCode "2222")
  refine ⟨h.1, ?_⟩
  have h2 := (h.2.1 "2222" rfl (by decide)).1
  rw [h2]
  have ht : pyStrip "2222" = "2222" := by decide
  rw [ht]

/-! ## Claim C8: the per-account loyalty-discount report -/

theorem getParsingResults_card_none (d : ResultsStore) (aid : String) :
    ∀ r ∈ getParsingResults d aid, r.card_discount_percent = none := by
  intro r hr
  rcases List.mem_map.mp hr with ⟨p, _, rfl⟩
  rfl

theorem collectOne_fold_no_discounts (rs : List ParsingResult)
    (h : ∀ r ∈ rs, r.card_discount_percent = none) (acc : GlobalAcc) :
    (rs.foldl collectOne acc).all_card_discounts = acc.all_card_discounts ∧
      (rs.foldl collectOne acc).discounts_by_account =
        acc.discounts_by_account := by
  induction rs generalizing acc with
  | nil => exact ⟨rfl, rfl⟩
  | cons r tl ih =>
    rw [List.foldl_cons]
    have hr := h r (List.mem_cons_self _ _)
    have hstep : (collectOne acc r).all_card_discounts =
        acc.all_card_discounts ∧
        (collectOne acc r).discounts_by_account = acc.discounts_by_account := by
      simp [collectOne, hr]
    obtain ⟨h1, h2⟩ := ih (fun x hx => h x (List.mem_cons_of_mem _ hx))
      (collectOne acc r)
    exact ⟨h1.trans hstep.1, h2.trans hstep.2⟩

theorem collect_no_discounts (d : ResultsStore) (arts : List ArticleRec)
    (acc : GlobalAcc) :
    (arts.foldl (collectStep d) acc).all_card_discounts =
        acc.all_card_discounts ∧
      (arts.foldl (collectStep d) acc).discounts_by_account =
        acc.discounts_by_account := by
  induction arts generalizing acc with
  | nil => exact ⟨rfl, rfl⟩
  | cons a tl ih =>
    rw [List.foldl_cons]
    have hstep := collectOne_fold_no_discounts
      (getParsingResults d a.article_id)
      (getParsingResults_card_none d a.article_id) acc
    obtain ⟨h1, h2⟩ := ih (collectStep d acc a)
    exact ⟨h1.trans hstep.1, h2.trans hstep.2⟩

/-- A stored record carrying a loyalty-discount key, as a legacy or
hand-written entry of `parsing_results.json` may. -/
def c8StoredWithDiscount : StoredResult :=
  { uuid := "r1"
    article_id := "100001"
    account_uuid := "acc-1"
    spp := 50
    dest := "123585633"
    price_basic := 100
    price_product := 90
    qty := 1
    card_discount_percent := some 15 }

/-- One article whose stored sample carries a 15% loyalty discount. -/
def c8State : ServerState :=
  { articles := [("100001", mkArt "100001")]
    results := [("100001", [("acc-1", c8StoredWithDiscount)])]
    analytics := []
    accounts := [("acc-1", mkAcc "acc-1")] }

/-- What `get_global_link` answers on `c8State`. -/
def c8Expected : GlobalLinkResponse :=
  { most_common_spp := 50
    most_common_dest := "123585633"
    generated_url :=
      "https://card.wb.ru/cards/v4/detail?appType=1&curr=rub&dest=123585633&spp=50&nm=100001"
    total_parses := 1
    avg_card_discount := none
    avg_discount_by_account := [] }

/-- C8: the per-account discount report of the global consensus is empty
for every store state — `get_parsing_results` rebuilds results through
`ParsingResult.__init__`, which never carries the discount attribute, so
the `hasattr` test of articles.py line 207 is always false.  In
particular, on a store whose record for account `acc-1` carries a 15%
discount, the report still contains no entry for `acc-1` and the average
discount is unset. -/
theorem c8_discount_report_always_empty :
    (∀ st r, getGlobalLink st = .ok r →
      r.avg_discount_by_account = [] ∧ r.avg_card_discount = none) ∧
      lookupStored c8State.results "100001" "acc-1" =
        some c8StoredWithDiscount ∧
      c8StoredWithDiscount.card_discount_percent = some 15 ∧
      getGlobalLink c8State = .ok c8Expected ∧
      c8Expected.avg_discount_by_account = [] := by
  refine ⟨?_, rfl, rfl, ?_, rfl⟩
  · intro st r h
    simp only [getGlobalLink] at h
    have hcol := collect_no_discounts st.results (getAllArticles st.articles)
      ⟨[], [], [], []⟩
    split at h
    · exact ApiResult.noConfusion h
    · split at h
      · exact ApiResult.noConfusion h
      · split at h
        · injection h with h'
          subst h'
          refine ⟨?_, ?_⟩
          · dsimp only
            rw [hcol.2]
            rfl
          · dsimp only
            rw [hcol.1]
            rfl
        · exact ApiResult.noConfusion h
  · norm_num [getGlobalLink, getAllArticles, dictValues, c8State, mkArt, mkAcc,
      collectStep, collectOne, getParsingResults, dictGet, List.find?,
      mostCommon, firstOccs, firstOccsAux, pickMax, List.count_cons,
      globalMostCommonSpp, globalRoundedSpp, Int.floor_eq_iff, pySortDesc,
      discountKeyLE, insDesc, c8StoredWithDiscount, c8Expected]
    rfl

/-- Witness for C8's universal part at the concrete store `c8State`. -/
theorem c8_discount_report_witness :
    c8Expected.avg_discount_by_account = [] ∧
      c8Expected.avg_card_discount = none := by
  have h := c8_discount_report_always_empty
  exact h.1 c8State c8Expected h.2.2.2.1

/-! ## Claim C9: zero samples yield "not found", never a server error

The stores are only ever written through the operations below
(`add_article`, `add_parsing_result`, `update_analytics`,
`add_account`, `update_cookies`, `delete_account`); nothing in the
repository deletes articles, results or analytics.  Under these
operations an analytics record exists only for an article that has at
least one stored sample. -/

/-- The write operations of the storage layer. -/
inductive StoreOp where
  | addArticleOp (a : ArticleRec)
  | addResultOp (r : ParsingResult)
  | updateAnalyticsOp (aid : String)
  | addAccountOp (acc : AccountRec)
  | updateCookiesOp (uuid : String) (cookies : String)
  | deleteAccountOp (uuid : String)

/-- Embedding of the write operations: `add_article`
(article_storage.py lines 55-71, a no-op on a duplicate id),
`add_parsing_result`, `update_analytics`, `add_account` (storage.py
lines 80-106), `update_cookies` (lines 139-196) and `delete_account`
(lines 278-304). -/
def applyOp (st : ServerState) : StoreOp → ServerState
  | .addArticleOp a =>
    if dictHasKey a.article_id st.articles then st
    else { st with articles := dictSet a.article_id a st.articles }
  | .addResultOp r => { st with results := addParsingResult r st.results }
  | .updateAnalyticsOp aid =>
    { st with analytics := (updateAnalytics aid st.results st.analytics).1 }
  | .addAccountOp acc =>
    if dictHasKey acc.uuid st.accounts then st
    else { st with accounts := dictSet acc.uuid acc st.accounts }
  | .updateCookiesOp u c =>
    if dictHasKey u st.accounts then
      { st with accounts := st.accounts.map (fun p =>
          if p.1 = u then (p.1, { p.2 with cookies := some c }) else p) }
    else st
  | .deleteAccountOp u =>
    if dictHasKey u st.accounts then
      { st with accounts := st.accounts.filter (fun p => p.1 != u) }
    else st

/-- The stores start as empty JSON objects. -/
def initialState : ServerState := ⟨[], [], [], []⟩

/-- A state the storage layer can actually be in. -/
def Reachable (st : ServerState) : Prop :=
  ∃ ops : List StoreOp, st = ops.foldl applyOp initialState

/-- Every analytics record is backed by at least one stored sample. -/
def AnalyticsBacked (st : ServerState) : Prop :=
  ∀ aid, dictHasKey aid st.analytics → getParsingResults st.results aid ≠ []

theorem dictHasKey_iff_mem_keys [DecidableEq α] {d : PyDict α β} {k : α} :
    dictHasKey k d = true ↔ k ∈ d.map Prod.fst := by
  simp only [dictHasKey, List.any_eq_true, List.mem_map, decide_eq_true_eq]

theorem dictHasKey_set_iff [DecidableEq α] {d : PyDict α β} {k k' : α} {v : β} :
    dictHasKey k' (dictSet k v d) = true ↔ k' = k ∨ dictHasKey k' d = true := by
  rw [dictHasKey_iff_mem_keys, dictHasKey_iff_mem_keys, dictSet_keys]
  by_cases hd : dictHasKey k d
  · rw [if_pos hd]
    constructor
    · exact Or.inr
    · rintro (rfl | h)
      · exact dictHasKey_iff_mem_keys.mp hd
      · exact h
  · rw [if_neg hd, List.mem_append, List.mem_singleton]
    tauto

theorem dictSet_ne_nil [DecidableEq α] (k : α) (v : β) (d : PyDict α β) :
    dictSet k v d ≠ [] := by
  by_cases hd : dictHasKey k d
  · cases d with
    | nil => simp [dictHasKey] at hd
    | cons p ds => simp [dictSet, hd]
  · simp [dictSet, hd]

theorem getParsingResults_add_ne_nil {d : ResultsStore} {r : ParsingResult}
    {aid : String} (h : getParsingResults d aid ≠ []) :
    getParsingResults (addParsingResult r d) aid ≠ [] := by
  by_cases haid : aid = r.article_id
  · subst haid
    simp only [getParsingResults, addParsingResult, dictGet_set_self]
    intro hcon
    exact dictSet_ne_nil _ _ _ (List.map_eq_nil_iff.mp hcon)
  · simp only [getParsingResults, addParsingResult,
      dictGet_set_ne haid] at h ⊢
    exact h

theorem mostCommon_some_ne_nil [DecidableEq α] {l : List α} {v : α}
    (h : mostCommon l = some v) : l ≠ [] := by
  intro h0
  subst h0
  exact absurd (mostCommon_mem h) (List.not_mem_nil v)

theorem analyticsBacked_applyOp {st : ServerState} (op : StoreOp)
    (h : AnalyticsBacked st) : AnalyticsBacked (applyOp st op) := by
  cases op with
  | addArticleOp a =>
    intro aid ha
    dsimp only [applyOp] at ha ⊢
    by_cases hk : dictHasKey a.article_id st.articles = true
    · rw [if_pos hk] at ha ⊢
      exact h aid ha
    · rw [if_neg hk] at ha ⊢
      dsimp only at ha ⊢
      exact h aid ha
  | addResultOp r =>
    intro aid ha
    dsimp only [applyOp] at ha ⊢
    exact getParsingResults_add_ne_nil (h aid ha)
  | updateAnalyticsOp aid2 =>
    intro aid ha
    dsimp only [applyOp] at ha ⊢
    rw [updateAnalytics] at ha
    cases hspp : mostCommon ((getParsingResults st.results aid2).map (·.spp)) with
    | none =>
      rw [hspp] at ha
      cases hdest : mostCommon
          ((getParsingResults st.results aid2).map (·.dest)) with
      | none =>
        rw [hdest] at ha
        exact h aid ha
      | some w =>
        rw [hdest] at ha
        exact h aid ha
    | some v =>
      rw [hspp] at ha
      cases hdest : mostCommon
          ((getParsingResults st.results aid2).map (·.dest)) with
      | none =>
        rw [hdest] at ha
        exact h aid ha
      | some w =>
        rw [hdest] at ha
        dsimp only at ha
        rcases dictHasKey_set_iff.mp ha with rfl | hold
        · have hne := mostCommon_some_ne_nil hspp
          intro hcon
          rw [hcon] at hne
          simp at hne
        · exact h aid hold
  | addAccountOp acc =>
    intro aid ha
    dsimp only [applyOp] at ha ⊢
    by_cases hk : dictHasKey acc.uuid st.accounts = true
    · rw [if_pos hk] at ha ⊢
      exact h aid ha
    · rw [if_neg hk] at ha ⊢
      dsimp only at ha ⊢
      exact h aid ha
  | updateCookiesOp u c =>
    intro aid ha
    dsimp only [applyOp] at ha ⊢
    by_cases hk : dictHasKey u st.accounts = true
    · rw [if_pos hk] at ha ⊢
      dsimp only at ha ⊢
      exact h aid ha
    · rw [if_neg hk] at ha ⊢
      exact h aid ha
  | deleteAccountOp u =>
    intro aid ha
    dsimp only [applyOp] at ha ⊢
    by_cases hk : dictHasKey u st.accounts = true
    · rw [if_pos hk] at ha ⊢
      dsimp only at ha ⊢
      exact h aid ha
    · rw [if_neg hk] at ha ⊢
      exact h aid ha

theorem analyticsBacked_foldl (ops : List StoreOp) (st : ServerState)
    (h : AnalyticsBacked st) : AnalyticsBacked (ops.foldl applyOp st) := by
  induction ops generalizing st with
  | nil => exact h
  | cons op tl ih => exact ih _ (analyticsBacked_applyOp op h)

theorem reachable_analyticsBacked {st : ServerState} (h : Reachable st) :
    AnalyticsBacked st := by
  obtain ⟨ops, rfl⟩ := h
  refine analyticsBacked_foldl ops initialState ?_
  intro aid ha
  simp [initialState, dictHasKey] at ha

theorem dictGet_some_hasKey [DecidableEq α] {d : PyDict α β} {k : α} {b : β}
    (h : dictGet k d = some b) : dictHasKey k d = true := by
  simp only [dictGet, Option.map_eq_some'] at h
  rcases h with ⟨q, hq, _⟩
  have hmem := List.mem_of_find?_eq_some hq
  have hpred := List.find?_some hq
  simp only [dictHasKey, List.any_eq_true]
  exact ⟨q, hmem, by simpa using hpred⟩

theorem collect_all_empty (d : ResultsStore) (arts : List ArticleRec)
    (acc : GlobalAcc)
    (h : ∀ a ∈ arts, getParsingResults d a.article_id = []) :
    arts.foldl (collectStep d) acc = acc := by
  induction arts generalizing acc with
  | nil => rfl
  | cons a tl ih =>
    rw [List.foldl_cons,
      show collectStep d acc a = acc from by
        simp [collectStep, h a (List.mem_cons_self _ _)]]
    exact ih _ (fun x hx => h x (List.mem_cons_of_mem _ hx))

/-- Every global-link request ends in a 404 or in a non-empty success —
the `IndexError` branch is unreachable. -/
theorem getGlobalLink_cases (st : ServerState) :
    (∃ msg, getGlobalLink st = .notFound msg) ∨
      ∃ r, getGlobalLink st = .ok r ∧ 0 < r.total_parses := by
  by_cases hA : (getAllArticles st.articles).isEmpty = true
  · exact Or.inl ⟨"no articles", by simp [getGlobalLink, hA]⟩
  · have hAne : getAllArticles st.articles ≠ [] := by
      simpa [List.isEmpty_iff] using hA
    set acc := (getAllArticles st.articles).foldl (collectStep st.results)
      ⟨[], [], [], []⟩ with hacc
    by_cases hS : (acc.all_spp.isEmpty || acc.all_dest.isEmpty) = true
    · refine Or.inl ⟨"no parsing data", ?_⟩
      simp only [getGlobalLink, ← hacc]
      rw [if_neg hA, if_pos hS]
    · right
      simp only [Bool.or_eq_true, not_or] at hS
      have hspp_ne : acc.all_spp ≠ [] := by
        simpa [List.isEmpty_iff] using hS.1
      have hdest_ne : acc.all_dest ≠ [] := by
        simpa [List.isEmpty_iff] using hS.2
      obtain ⟨v, hv⟩ := mostCommon_isSome
        (l := globalRoundedSpp acc.all_spp)
        (by simp [globalRoundedSpp, hspp_ne])
      obtain ⟨w, hw⟩ := mostCommon_isSome hdest_ne
      obtain ⟨a0, tl, hhead⟩ : ∃ a0 tl,
          getAllArticles st.articles = a0 :: tl := by
        cases hl : getAllArticles st.articles with
        | nil => exact absurd hl hAne
        | cons x xs => exact ⟨x, xs, rfl⟩
      have hv' : globalMostCommonSpp acc.all_spp = some v := hv
      refine ⟨⟨v, w,
        "https://card.wb.ru/cards/v4/detail?appType=1&curr=rub&dest=" ++
          w ++ "&spp=" ++ toString v ++ "&nm=" ++ a0.article_id,
        (acc.all_spp.length : Int),
        (if acc.all_card_discounts.isEmpty then none
          else some (pyRound (acc.all_card_discounts.sum /
            (acc.all_card_discounts.length : ℚ)) 1)),
        pySortDesc discountKeyLE (acc.discounts_by_account.map (fun p =>
          ⟨p.1, (dictGet p.1 st.accounts).map (·.name),
            (if p.2.isEmpty then none
              else some (pyRound (p.2.sum / (p.2.length : ℚ)) 1)),
            (p.2.length : Int)⟩))⟩, ?_, ?_⟩
      · simp only [getGlobalLink, ← hacc]
        rw [if_neg hA, if_neg (by simp [Bool.or_eq_true, hS.1, hS.2]),
          hhead, List.head?_cons, hv', hw]
      · dsimp only
        exact_mod_cast List.length_pos.mpr hspp_ne

/-- C9: a consensus request over a scope with zero stored samples is
answered with "not found": per product, on every reachable store state an
absent sample set means an absent analytics record, so `get_article_link`
is a 404; globally, zero samples across all articles end in a 404.  A
successful global consensus always covers at least one sample, and no
request ends in a server error. -/
theorem c9_no_data_is_not_found :
    (∀ st aid, Reachable st → getParsingResults st.results aid = [] →
      getArticleLink st aid = .notFound "no data for the article") ∧
      (∀ st, (∀ a ∈ getAllArticles st.articles,
          getParsingResults st.results a.article_id = []) →
        ∃ msg, getGlobalLink st = .notFound msg) ∧
      (∀ st r, getGlobalLink st = .ok r → 0 < r.total_parses) ∧
      (∀ st msg, getGlobalLink st ≠ .serverError msg) := by
  refine ⟨?_, ?_, ?_, ?_⟩
  · intro st aid hreach hempty
    unfold getArticleLink
    cases hg : dictGet aid st.analytics with
    | none => rfl
    | some a =>
      have hb := reachable_analyticsBacked hreach aid (dictGet_some_hasKey hg)
      exact absurd hempty hb
  · intro st hall
    by_cases hA : (getAllArticles st.articles).isEmpty = true
    · exact ⟨"no articles", by simp [getGlobalLink, hA]⟩
    · refine ⟨"no parsing data", ?_⟩
      have hempty := collect_all_empty st.results (getAllArticles st.articles)
        ⟨[], [], [], []⟩ hall
      simp only [getGlobalLink]
      rw [if_neg hA, hempty]
      rfl
  · intro st r h
    rcases getGlobalLink_cases st with ⟨msg, hm⟩ | ⟨r', hr', hpos⟩
    · rw [h] at hm
      exact ApiResult.noConfusion hm
    · rw [h] at hr'
      injection hr' with h'
      subst h'
      exact hpos
  · intro st msg h
    rcases getGlobalLink_cases st with ⟨m, hm⟩ | ⟨r', hr', _⟩
    · rw [h] at hm
      exact ApiResult.noConfusion hm
    · rw [h] at hr'
      exact ApiResult.noConfusion hr'

/-- Witness for C9 on the initial (empty) store. -/
theorem c9_witness :
    getArticleLink initialState "100001" =
        .notFound "no data for the article" ∧
      ∃ msg, getGlobalLink initialState = .notFound msg := by
  have h := c9_no_data_is_not_found
  exact ⟨h.1 initialState "100001" ⟨[], rfl⟩ rfl,
    h.2.1 initialState (by simp [initialState, getAllArticles, dictValues])⟩

end WB
